import Mathlib

/-!
Verification development for the cp-api repository (Copilot shim).

The definitions below are shallow embeddings of the request queue
(src/api/queue.ts), the session manager (src/browser/sessions.ts), the
chat-completion handler (src/api/*.ts handlers), the model catalog and the
page-interaction routines (src/browser/models.ts, src/browser/copilot.ts).
JavaScript numbers holding timestamps and counters are modelled as Nat;
the single-threaded event loop is modelled as an explicit event-step
function, each event being one synchronous run-to-suspension segment of the
original code.
-/

namespace CpApi

/-! ## Request queue (class RequestQueue)

An enqueued item settles with the pure outcome stored in the item: the
`execute` closure of the source is opaque to the queue, so it is modelled
as a predetermined `Except` value.  The `running` and `executed` fields are
ghost observers: `running` lists the items whose `execute()` has been
started and not yet settled, `executed` logs every id whose operation was
ever started, in start order.  `timers` holds the ids whose per-item
timeout is still armed (`setTimeout` armed on enqueue, `clearTimeout` on
dequeue). -/

def config_maxQueueSize : Nat := 100

def config_requestTimeout : Nat := 180000

inductive Outcome where
  | ok (v : Nat)
  | err (e : String)
  | queueFull
  | queueTimeout
  | queueShutdown
  deriving DecidableEq, Repr

instance : DecidableEq (Except String Nat) := fun a b =>
  match a, b with
  | .ok x, .ok y => if h : x = y then .isTrue (by rw [h]) else .isFalse (by simp [h])
  | .error x, .error y => if h : x = y then .isTrue (by rw [h]) else .isFalse (by simp [h])
  | .ok _, .error _ => .isFalse (by simp)
  | .error _, .ok _ => .isFalse (by simp)

structure QItem where
  id : Nat
  res : Except String Nat
  deriving DecidableEq, Repr

def QItem.outcome (it : QItem) : Outcome :=
  match it.res with
  | .ok v => .ok v
  | .error e => .err e

structure QState where
  waiting : List QItem
  timers : List Nat
  processing : Bool
  running : List QItem
  settled : List (Nat × Outcome)
  executed : List Nat
  deriving DecidableEq, Repr

/-- JS `String.prototype.trim`: strip leading and trailing whitespace. -/
def jsTrim (s : String) : String :=
  String.mk (((s.toList.dropWhile Char.isWhitespace).reverse.dropWhile
    Char.isWhitespace).reverse)

/-- JS `String.prototype.toLowerCase` (the mapping keys are ASCII). -/
def jsToLower (s : String) : String :=
  String.mk (s.toList.map Char.toLower)

def initQ : QState := ⟨[], [], false, [], [], []⟩

def waitingIds (s : QState) : List Nat := s.waiting.map (·.id)

/-- Synchronous part of `processNext` up to `await item.execute()`:
guard on `processing` and emptiness, shift the head, clear its timer,
start executing it. -/
def processNextStart (s : QState) : QState :=
  if s.processing then s
  else
    match s.waiting with
    | [] => s
    | item :: rest =>
      { s with
        waiting := rest
        timers := s.timers.erase item.id
        processing := true
        running := s.running ++ [item]
        executed := s.executed ++ [item.id] }

/-- Continuation of `processNext` after `await item.execute()` settles:
resolve or reject the item with the outcome of its own operation, clear
`processing`, then call `processNext()` again. -/
def finishRun (s : QState) : QState :=
  match s.running with
  | [item] =>
    processNextStart
      { s with
        running := []
        processing := false
        settled := s.settled ++ [(item.id, item.outcome)] }
  | _ => s

/-- `enqueue`: reject with QueueFull when the waiting list is at capacity,
otherwise push the item, arm its timer, and kick `processNext`. -/
def enqueue (maxQ : Nat) (it : QItem) (s : QState) : QState :=
  if maxQ ≤ s.waiting.length then
    { s with settled := s.settled ++ [(it.id, .queueFull)] }
  else
    processNextStart
      { s with
        waiting := s.waiting ++ [it]
        timers := s.timers ++ [it.id] }

/-- The `setTimeout` callback of an item: runs only while the timer is
still armed; looks the item up in the waiting list (`indexOf`), and when
present splices it out and rejects with the queue-timeout error. -/
def timerFire (i : Nat) (s : QState) : QState :=
  if i ∈ s.timers then
    let s1 := { s with timers := s.timers.erase i }
    if s1.waiting.any (fun it => it.id == i) then
      { s1 with
        waiting := s1.waiting.eraseP (fun it => it.id == i)
        settled := s1.settled ++ [(i, .queueTimeout)] }
    else s1
  else s

inductive QEvent where
  | enq (it : QItem)
  | fin
  | timer (i : Nat)
  deriving DecidableEq, Repr

def qStep (maxQ : Nat) : QEvent → QState → QState
  | .enq it, s => enqueue maxQ it s
  | .fin, s => finishRun s
  | .timer i, s => timerFire i s

def runTrace (maxQ : Nat) (tr : List QEvent) (s : QState) : QState :=
  tr.foldl (fun s e => qStep maxQ e s) s

def enqueueAll (maxQ : Nat) (items : List QItem) (s : QState) : QState :=
  items.foldl (fun s it => enqueue maxQ it s) s

/-- At most one operation is ever executing, and the worker flag tracks it. -/
def QInv (s : QState) : Prop :=
  s.running.length ≤ 1 ∧ (s.processing = false → s.running = [])

/-- The canonical schedule of the FIFO claim: every enqueue is issued
before any operation has settled, then the worker drains the backlog. -/
def fifoRunState (maxQ : Nat) (items : List QItem) : QState :=
  finishRun^[items.length] (enqueueAll maxQ items initQ)

/-- A concrete backlog used to evaluate the queue theorems. -/
def demoItems : List QItem :=
  [⟨1, .ok 10⟩, ⟨2, .error "boom"⟩, ⟨3, .ok 30⟩]


/-! ## Session manager (class SessionManager)

The registry is a `Map` iterated in insertion order; it is modelled as a
list with unique ids.  Session ids are uuids, modelled as abstract Nats;
`Date.now()` timestamps are explicit `now` arguments. -/

def sessionTimeoutMs : Nat := 1800000

def sessionsMax : Nat := 10

structure Session where
  id : Nat
  createdAt : Nat
  lastActivityAt : Nat
  messageCount : Nat
  deriving DecidableEq, Repr

/-- `now - session.lastActivityAt > SESSION_CONFIG.timeoutMs`; JS number
subtraction is negative (hence not greater) exactly when Nat subtraction
truncates to zero here. -/
def isExpired (now : Nat) (s : Session) : Bool :=
  sessionTimeoutMs < now - s.lastActivityAt

/-- `sessions.delete(id)` (the registry part of `closeSession`). -/
def removeSession (ss : List Session) (i : Nat) : List Session :=
  ss.eraseP (fun s => s.id == i)

/-- `closeSession`: absent id reports false and changes nothing; otherwise
the page is closed (errors logged, not propagated) and the entry removed. -/
def closeSession (ss : List Session) (i : Nat) : Bool × List Session :=
  if ss.any (fun s => s.id == i) then (true, removeSession ss i) else (false, ss)

/-- `cleanupExpiredSessions`: collect the expired ids, then close each. -/
def cleanupExpiredSessions (now : Nat) (ss : List Session) : List Session :=
  ((ss.filter (isExpired now)).map (·.id)).foldl removeSession ss

/-- `getOldestSession`: linear scan keeping the entry with the strictly
smallest last-activity timestamp, first encountered wins ties. -/
def getOldestSession (ss : List Session) : Option Session :=
  ss.foldl
    (fun old s =>
      match old with
      | none => some s
      | some o => if s.lastActivityAt < o.lastActivityAt then some s else some o)
    none

/-- The accumulator loop of `getOldestSession` once the first session has
been seen. -/
def oldestFrom (o : Session) (l : List Session) : Session :=
  l.foldl (fun o s => if s.lastActivityAt < o.lastActivityAt then s else o) o

/-- A concrete full registry used to evaluate the session theorems: ten
live sessions, the strictly oldest activity in the middle. -/
def demoRegistry : List Session :=
  [⟨1, 0, 40, 0⟩, ⟨2, 0, 30, 0⟩, ⟨3, 0, 20, 0⟩, ⟨4, 0, 5, 0⟩, ⟨5, 0, 50, 0⟩,
   ⟨6, 0, 60, 0⟩, ⟨7, 0, 70, 0⟩, ⟨8, 0, 80, 0⟩, ⟨9, 0, 90, 0⟩, ⟨10, 0, 95, 0⟩]

/-- `createSession`: when at capacity, sweep expired sessions, and if still
at capacity close the oldest; then register a fresh session with message
count zero. -/
def createSession (now : Nat) (freshId : Nat) (ss : List Session) :
    Session × List Session :=
  let ss1 :=
    if sessionsMax ≤ ss.length then
      let ss2 := cleanupExpiredSessions now ss
      if sessionsMax ≤ ss2.length then
        match getOldestSession ss2 with
        | some o => removeSession ss2 o.id
        | none => ss2
      else ss2
    else ss
  let s : Session := ⟨freshId, now, now, 0⟩
  (s, ss1 ++ [s])

/-- `getOrCreateSession`: an existing id gets its last activity bumped and
is returned; otherwise (unknown or omitted id) a new session is created. -/
def getOrCreateSession (now freshId : Nat) (sid? : Option Nat)
    (ss : List Session) : Session × List Session :=
  match sid? with
  | some sid =>
    match ss.find? (fun s => s.id == sid) with
    | some s =>
      let s1 := { s with lastActivityAt := now }
      (s1, ss.map (fun t => if t.id == sid then { t with lastActivityAt := now } else t))
    | none => createSession now freshId ss
  | none => createSession now freshId ss

/-- `touchSession`: bump last activity and increment the message count;
no-op for an unknown id. -/
def touchSession (now : Nat) (sid : Nat) (ss : List Session) : List Session :=
  if ss.any (fun s => s.id == sid) then
    ss.map (fun s =>
      if s.id == sid then
        { s with lastActivityAt := now, messageCount := s.messageCount + 1 }
      else s)
  else ss

def hasSession (ss : List Session) (sid : Nat) : Bool :=
  ss.any (fun s => s.id == sid)

/-! ## Model catalog (src/browser/models.ts) -/

inductive CopilotModel where
  | auto
  | quick
  | think
  | gpt52Quick
  | gpt52Think
  deriving DecidableEq, Repr

/-- The `modelsInMoreSection` set. -/
def modelsInMoreSection (m : CopilotModel) : Bool :=
  match m with
  | .gpt52Quick => true
  | .gpt52Think => true
  | _ => false

/-- The `modelMapping` record (own keys of the literal object). -/
def modelMapping : String → Option CopilotModel
  | "copilot-auto" => some .auto
  | "auto" => some .auto
  | "copilot-quick" => some .quick
  | "gpt-4o" => some .quick
  | "gpt-4o-mini" => some .quick
  | "gpt-4" => some .quick
  | "gpt-3.5-turbo" => some .quick
  | "copilot-think" => some .think
  | "o1" => some .think
  | "o1-mini" => some .think
  | "o1-preview" => some .think
  | "gpt-5.2" => some .gpt52Quick
  | "gpt-5.2-quick" => some .gpt52Quick
  | "gpt-5" => some .gpt52Quick
  | "gpt-5.2-think" => some .gpt52Think
  | "o3" => some .gpt52Think
  | "o3-mini" => some .gpt52Think
  | _ => none

def defaultModel : CopilotModel := .auto

def availableModelNames : List String :=
  ["copilot-auto", "copilot-quick", "copilot-think", "gpt-5.2-quick", "gpt-5.2-think"]

def mapModelName (name : String) : Option CopilotModel :=
  modelMapping (jsTrim (jsToLower name))

def isValidModel (name : String) : Bool :=
  (mapModelName name).isSome

def getCopilotModel (name? : Option String) : CopilotModel :=
  match name? with
  | none => defaultModel
  | some name =>
    if name = "" then defaultModel
    else (mapModelName name).getD defaultModel

def modelNotFoundMessage (name : String) : String :=
  "Model \x27" ++ name ++ "\x27 is not supported. Available models: " ++
    String.intercalate ", " availableModelNames

/-! ## Chat-completion handler (handleChatCompletion), up to the enqueue

The handler is pure up to the point where it either sends an error
response or hands a closure to the queue: that prefix is modelled as a
function returning the chosen action together with the updated registry. -/

inductive Role where
  | system
  | user
  | assistant
  deriving DecidableEq, Repr

structure Msg where
  role : Role
  content : String
  deriving DecidableEq, Repr

structure ChatRequest where
  model : Option String
  messages : List Msg
  session_id : Option Nat
  stream : Bool
  deriving DecidableEq, Repr

inductive HandlerAction where
  | reject (status : Nat) (code : String) (message : String)
  | enqueueExchange (model : CopilotModel) (sessionId : Nat)
      (messageToSend : String) (isFirstMessage : Bool)
  deriving DecidableEq, Repr

/-- `requestedModel && !isValidModel(requestedModel)`: an absent or empty
model skips validation. -/
def modelCheckFails (model? : Option String) : Bool :=
  match model? with
  | some m => m != "" && !(isValidModel m)
  | none => false

/-- `formatMessagesAsPrompt`. -/
def formatMessagesAsPrompt (messages : List Msg) : String :=
  match messages with
  | [m] => m.content
  | _ =>
    String.intercalate "\n\n"
      (messages.map (fun msg =>
        match msg.role with
        | .system => "[System Instructions]\n" ++ msg.content
        | .assistant => "[Previous Assistant Response]\n" ++ msg.content
        | .user => msg.content))

def handleChatCompletionPre (req : ChatRequest) (now freshId : Nat)
    (ss : List Session) : HandlerAction × List Session :=
  if req.messages.isEmpty then
    (.reject 400 "invalid_messages"
      "messages is required and must be a non-empty array", ss)
  else if req.stream then
    (.reject 400 "streaming_not_supported"
      "Streaming is not supported by this server", ss)
  else if modelCheckFails req.model then
    (.reject 400 "model_not_found" (modelNotFoundMessage (req.model.getD "")), ss)
  else
    let copilotModel := getCopilotModel req.model
    let sr := getOrCreateSession now freshId req.session_id ss
    let isFirstMessage := sr.1.messageCount == 0
    if isFirstMessage then
      (.enqueueExchange copilotModel sr.1.id (formatMessagesAsPrompt req.messages) true,
        sr.2)
    else
      match req.messages.reverse.find? (fun msg => msg.role == Role.user) with
      | some lastUser =>
        (.enqueueExchange copilotModel sr.1.id lastUser.content false, sr.2)
      | none =>
        (.reject 400 "no_user_message" "No user message found in messages array", sr.2)

/-- After the queued exchange settles: on success the handler touches the
session (bumping count and activity); on failure it answers 500 and leaves
the registry alone. -/
def handleExchangeOutcome (now : Nat) (sid : Nat)
    (outcome : Except String String) (ss : List Session) : List Session :=
  match outcome with
  | .ok _ => touchSession now sid ss
  | .error _ => ss

/-- Every registry-mutating operation of the manager and handler, for the
monotonicity statement about message counts. -/
inductive MgrOp where
  | create (now freshId : Nat)
  | getOrCreate (now freshId : Nat) (sid? : Option Nat)
  | touch (now sid : Nat)
  | close (sid : Nat)
  | cleanup (now : Nat)
  | exchange (now sid : Nat) (outcome : Except String String)

def applyMgrOp : MgrOp → List Session → List Session
  | .create now fresh, ss => (createSession now fresh ss).2
  | .getOrCreate now fresh sid?, ss => (getOrCreateSession now fresh sid? ss).2
  | .touch now sid, ss => touchSession now sid ss
  | .close sid, ss => (closeSession ss sid).2
  | .cleanup now, ss => cleanupExpiredSessions now ss
  | .exchange now sid out, ss => handleExchangeOutcome now sid out ss

/-- The fresh id minted by a creating operation must be genuinely fresh
(uuids never collide with live sessions). -/
def opFreshId : MgrOp → List Session → Prop
  | .create _ fresh, ss => fresh ∉ ss.map (·.id)
  | .getOrCreate _ fresh _, ss => fresh ∉ ss.map (·.id)
  | _, _ => True

/-! ## Model selection on a page (selectModelOnPage)

The page is an oracle of booleans saying which UI lookups succeed.  The
`cur` argument is the model the UI currently has selected; a successful
option click replaces it, every other path leaves it alone. -/

structure SelectEnv where
  modelButtonPresent : Bool
  modelButtonClickOk : Bool
  moreButtonPresent : Bool
  moreButtonClickOk : Bool
  optionAppears : Bool
  optionClickOk : Bool
  escapeOk : Bool
  deriving DecidableEq, Repr

inductive SelectErr where
  | clickFailed
  | optionTimeout
  deriving DecidableEq, Repr

/-- Body of the `try` block of `selectModelOnPage`, flattened: each branch
is reached only when every earlier await succeeded.  A missing selector
button is an early plain return, not an exception. -/
def selectModelAttempt (env : SelectEnv) (model cur : CopilotModel) :
    Except SelectErr (Bool × CopilotModel) :=
  if env.modelButtonPresent = false then
    Except.ok (false, cur)
  else if env.modelButtonClickOk = false then
    Except.error .clickFailed
  else if modelsInMoreSection model && env.moreButtonPresent && !env.moreButtonClickOk then
    Except.error .clickFailed
  else if env.optionAppears = false then
    Except.error .optionTimeout
  else if env.optionClickOk = false then
    Except.error .clickFailed
  else
    Except.ok (true, model)

/-- `selectModelOnPage`: the catch block logs, then presses Escape; only a
failure of that Escape press itself can escape the function. -/
def selectModelOnPage (env : SelectEnv) (model cur : CopilotModel) :
    Except String (Bool × CopilotModel) :=
  match selectModelAttempt env model cur with
  | .ok r => .ok r
  | .error _ => if env.escapeOk then .ok (false, cur) else .error "escape press failed"

/-- `ensureOnCopilot`: navigate only when not already on the chat surface;
a navigation timeout is fatal. -/
def ensureOnCopilot (onCopilot navigateOk : Bool) : Except String Unit :=
  if onCopilot then .ok ()
  else if navigateOk then .ok ()
  else .error "navigation timeout"

structure ExchangeEnv where
  sel : SelectEnv
  onCopilot : Bool
  navigateOk : Bool
  sendOutcome : Except String String
  deriving Repr

/-- `chatCompletionOnPage`: ensure the surface, on a first message run the
new-chat reset (whose try/catch swallows every failure, so it has no
observable effect here) and the model selection, then submit the message.
The returned pair is the response text and the model the UI ended up on. -/
def chatCompletionOnPage (env : ExchangeEnv) (model : CopilotModel)
    (isFirstMessage : Bool) (cur : CopilotModel) :
    Except String (String × CopilotModel) :=
  match ensureOnCopilot env.onCopilot env.navigateOk with
  | .error e => .error e
  | .ok _ =>
    if isFirstMessage then
      match selectModelOnPage env.sel model cur with
      | .error e => .error e
      | .ok (_, cur1) =>
        match env.sendOutcome with
        | .ok text => .ok (text, cur1)
        | .error e => .error e
    else
      match env.sendOutcome with
      | .ok text => .ok (text, cur)
      | .error e => .error e

/-! ## Response extraction (extractLastResponseFromPage)

A page state is, per selector, the list of `textContent` values of the
matching elements in document order (`none` = null `textContent`). -/

structure ExtractPage where
  lastAssistantMessage : List (Option String)
  assistantMessage : List (Option String)
  responseContainer : List (Option String)
  messageShaped : List (Option String)
  deriving DecidableEq, Repr

/-- One iteration of the strategy loop: take the last matching element,
return its trimmed text when `text && text.trim()` is truthy. -/
def strategyResult (elems : List (Option String)) : Option String :=
  match elems.getLast? with
  | some (some text) => if jsTrim text ≠ "" then some (jsTrim text) else none
  | _ => none

/-- `extractLastResponseFromPage`: the three structural selectors in order,
then the generic message-shaped fallback whose guard is only `if (text)`;
`none` is the thrown extraction-failure error. -/
def extractLastResponseFromPage (p : ExtractPage) : Option String :=
  match [p.lastAssistantMessage, p.assistantMessage, p.responseContainer].findSome?
      strategyResult with
  | some t => some t
  | none =>
    match p.messageShaped.getLast? with
    | some (some text) => if text ≠ "" then some (jsTrim text) else none
    | _ => none

/-- The claim reading of the claim text: the four strategies are tried in
the fixed order and each one, the generic fallback included, yields a
result exactly when the trimmed text of its last matching element is
non-empty; the first result wins, and no result at all means the
extraction-failure error. -/
def extractResponseSpec (p : ExtractPage) : Option String :=
  [strategyResult p.lastAssistantMessage,
   strategyResult p.assistantMessage,
   strategyResult p.responseContainer,
   strategyResult p.messageShaped].findSome? id

/-- What the fallback strategy of the source actually requires: a non-null,
non-empty raw text, whose trimmed form — possibly the empty string — is
returned. -/
def fallbackStrategyResult (elems : List (Option String)) : Option String :=
  match elems.getLast? with
  | some (some text) => if text ≠ "" then some (jsTrim text) else none
  | _ => none

/-- The amended specification: as `extractResponseSpec`, except that the
generic fallback counts any non-null, non-empty raw text as a match, so it
can return an empty string after trimming. -/
def extractResponseSpecAmended (p : ExtractPage) : Option String :=
  [strategyResult p.lastAssistantMessage,
   strategyResult p.assistantMessage,
   strategyResult p.responseContainer,
   fallbackStrategyResult p.messageShaped].findSome? id

/-! ## Idle sweep versus running exchanges (claim about interleavings)

One event is one synchronous run-to-suspension segment of the event loop:
session creation, the handler bumping activity as the queue starts an
exchange, the exchange settling (which touches the session), the interval
callback running the sweep, and wall-clock time passing between segments.
`closedWhileRunning` is a ghost log of ids whose page the sweep closed
while the single in-flight exchange was running against that page. -/

structure SysState where
  now : Nat
  sessions : List Session
  runningExchange : Option Nat
  closedWhileRunning : List Nat
  deriving DecidableEq, Repr

def initSys : SysState := ⟨0, [], none, []⟩

inductive SysEvent where
  | create (sid : Nat)
  | tick (d : Nat)
  | beginExchange (sid : Nat)
  | endExchange
  | sweep
  deriving DecidableEq, Repr

def sysStep : SysEvent → SysState → SysState
  | .create sid, st =>
    { st with sessions := st.sessions ++ [⟨sid, st.now, st.now, 0⟩] }
  | .tick d, st => { st with now := st.now + d }
  | .beginExchange sid, st =>
    if st.runningExchange.isNone && st.sessions.any (fun s => s.id == sid) then
      { st with
        runningExchange := some sid
        sessions := st.sessions.map (fun s =>
          if s.id == sid then { s with lastActivityAt := st.now } else s) }
    else st
  | .endExchange, st =>
    match st.runningExchange with
    | some sid =>
      { st with
        runningExchange := none
        sessions := touchSession st.now sid st.sessions }
    | none => st
  | .sweep, st =>
    { st with
      sessions := cleanupExpiredSessions st.now st.sessions
      closedWhileRunning := st.closedWhileRunning ++
        ((st.sessions.filter (isExpired st.now)).filter
          (fun s => st.runningExchange == some s.id)).map (·.id) }

def runSysTrace (tr : List SysEvent) (st : SysState) : SysState :=
  tr.foldl (fun st e => sysStep e st) st

/-- An interleaving on which the sweep closes the page of the session whose
exchange is running: the exchange starts, more than the idle threshold of
wall-clock time passes while it is still in flight, the interval callback
fires. -/
def sweepRaceTrace : List SysEvent :=
  [.create 1, .beginExchange 1, .tick 1800001, .sweep]

/-! ## Queue lemmas -/

theorem processNextStart_of_processing (s : QState) (h : s.processing = true) :
    processNextStart s = s := by
  simp [processNextStart, h]

theorem enqueue_busy (maxQ : Nat) (it : QItem) (w : List QItem) (T : List Nat)
    (R : List QItem) (S : List (Nat × Outcome)) (E : List Nat)
    (h : w.length < maxQ) :
    enqueue maxQ it ⟨w, T, true, R, S, E⟩ = ⟨w ++ [it], T ++ [it.id], true, R, S, E⟩ := by
  simp [enqueue, Nat.not_le.mpr h, processNextStart]

theorem enqueueAll_busy (maxQ : Nat) (items : List QItem) :
    ∀ (w : List QItem) (T : List Nat) (R : List QItem) (S : List (Nat × Outcome))
      (E : List Nat), w.length + items.length ≤ maxQ →
      enqueueAll maxQ items ⟨w, T, true, R, S, E⟩
        = ⟨w ++ items, T ++ items.map (·.id), true, R, S, E⟩ := by
  induction items with
  | nil => intro w T R S E _; simp [enqueueAll]
  | cons a l ih =>
    intro w T R S E h
    have h1 : w.length < maxQ := by simp at h; omega
    have h2 : (w ++ [a]).length + l.length ≤ maxQ := by simp at h ⊢; omega
    calc enqueueAll maxQ (a :: l) ⟨w, T, true, R, S, E⟩
        = enqueueAll maxQ l (enqueue maxQ a ⟨w, T, true, R, S, E⟩) := rfl
      _ = enqueueAll maxQ l ⟨w ++ [a], T ++ [a.id], true, R, S, E⟩ := by
          rw [enqueue_busy maxQ a w T R S E h1]
      _ = ⟨(w ++ [a]) ++ l, (T ++ [a.id]) ++ l.map (·.id), true, R, S, E⟩ :=
          ih (w ++ [a]) (T ++ [a.id]) R S E h2
      _ = ⟨w ++ a :: l, T ++ (a :: l).map (·.id), true, R, S, E⟩ := by
          simp

theorem enqueueAll_init (maxQ : Nat) (a : QItem) (items : List QItem)
    (h : items.length + 1 ≤ maxQ) :
    enqueueAll maxQ (a :: items) initQ
      = ⟨items, items.map (·.id), true, [a], [], [a.id]⟩ := by
  have h0 : 0 < maxQ := by omega
  have hstep : enqueue maxQ a initQ = ⟨[], [], true, [a], [], [a.id]⟩ := by
    simp [enqueue, initQ, Nat.not_le.mpr h0, processNextStart]
  calc enqueueAll maxQ (a :: items) initQ
      = enqueueAll maxQ items (enqueue maxQ a initQ) := rfl
    _ = enqueueAll maxQ items ⟨[], [], true, [a], [], [a.id]⟩ := by rw [hstep]
    _ = ⟨[] ++ items, [] ++ items.map (·.id), true, [a], [], [a.id]⟩ :=
        enqueueAll_busy maxQ items [] [] [a] [] [a.id] (by simp only [List.length_nil]; omega)
    _ = ⟨items, items.map (·.id), true, [a], [], [a.id]⟩ := by simp

theorem finish_drain (l : List QItem) :
    ∀ (a : QItem) (T : List Nat) (S : List (Nat × Outcome)) (E : List Nat),
      finishRun^[l.length + 1] ⟨l, T, true, [a], S, E⟩
        = ⟨[], l.foldl (fun t it => t.erase it.id) T, false, [],
            S ++ (a :: l).map (fun it => (it.id, it.outcome)), E ++ l.map (·.id)⟩ := by
  induction l with
  | nil =>
    intro a T S E
    simp [finishRun, processNextStart]
  | cons b l ih =>
    intro a T S E
    have hstep : finishRun ⟨b :: l, T, true, [a], S, E⟩
        = ⟨l, T.erase b.id, true, [b], S ++ [(a.id, a.outcome)], E ++ [b.id]⟩ := by
      simp [finishRun, processNextStart]
    calc finishRun^[(b :: l).length + 1] ⟨b :: l, T, true, [a], S, E⟩
        = finishRun^[l.length + 1] (finishRun ⟨b :: l, T, true, [a], S, E⟩) :=
          Function.iterate_succ_apply finishRun (l.length + 1) _
      _ = finishRun^[l.length + 1]
            ⟨l, T.erase b.id, true, [b], S ++ [(a.id, a.outcome)], E ++ [b.id]⟩ := by
          rw [hstep]
      _ = ⟨[], l.foldl (fun t it => t.erase it.id) (T.erase b.id), false, [],
            (S ++ [(a.id, a.outcome)]) ++ (b :: l).map (fun it => (it.id, it.outcome)),
            (E ++ [b.id]) ++ l.map (·.id)⟩ := ih b (T.erase b.id) _ _
      _ = _ := by simp

theorem qInv_processNextStart (s : QState) (h : QInv s) : QInv (processNextStart s) := by
  by_cases hp : s.processing = true
  · rw [processNextStart_of_processing s hp]; exact h
  · have hr : s.running = [] := h.2 (by simpa using hp)
    unfold processNextStart
    simp only [Bool.not_eq_true] at hp
    rw [hp]
    cases hw : s.waiting with
    | nil => simpa [hp, hw] using h
    | cons item rest =>
      constructor
      · simp [hr]
      · intro hfalse; simp at hfalse

theorem qInv_step (maxQ : Nat) (e : QEvent) (s : QState) (h : QInv s) :
    QInv (qStep maxQ e s) := by
  cases e with
  | enq it =>
    show QInv (enqueue maxQ it s)
    unfold enqueue
    by_cases hf : maxQ ≤ s.waiting.length
    · simpa [hf, QInv] using h
    · simp only [hf, if_false]
      exact qInv_processNextStart _ ⟨h.1, h.2⟩
  | fin =>
    show QInv (finishRun s)
    unfold finishRun
    cases hr : s.running with
    | nil => simp [hr, QInv]
    | cons item rest =>
      cases rest with
      | nil => exact qInv_processNextStart _ ⟨by simp, fun _ => rfl⟩
      | cons b t =>
        exfalso
        have h2 := h.1
        rw [hr] at h2
        simp at h2
  | timer i =>
    show QInv (timerFire i s)
    unfold timerFire
    by_cases ht : i ∈ s.timers
    · simp only [ht, if_true]
      by_cases ha : ({ s with timers := s.timers.erase i } : QState).waiting.any
          (fun it => it.id == i)
      · simpa [ha, QInv] using h
      · simpa [ha, QInv] using h
    · simpa [ht] using h

theorem qInv_runTrace (maxQ : Nat) (tr : List QEvent) :
    ∀ s : QState, QInv s → QInv (runTrace maxQ tr s) := by
  induction tr with
  | nil => intro s h; exact h
  | cons e tr ih => intro s h; exact ih (qStep maxQ e s) (qInv_step maxQ e s h)

theorem qInv_initQ : QInv initQ := ⟨by simp [initQ], fun _ => rfl⟩

/-- C1: issuing all enqueues before any settles, the worker drains the
backlog in strict arrival order — every id is started in arrival order,
each promise settles with the outcome of exactly its own operation, and on
any schedule at all at most one operation is executing at any instant. -/
theorem queue_fifo_single_flight (maxQ : Nat) (items : List QItem)
    (h : items.length ≤ maxQ) :
    (fifoRunState maxQ items).settled = items.map (fun it => (it.id, it.outcome))
    ∧ (fifoRunState maxQ items).executed = items.map (·.id)
    ∧ (fifoRunState maxQ items).waiting = []
    ∧ (fifoRunState maxQ items).running = []
    ∧ ∀ tr : List QEvent, (runTrace maxQ tr initQ).running.length ≤ 1 := by
  have htrace : ∀ tr : List QEvent, (runTrace maxQ tr initQ).running.length ≤ 1 :=
    fun tr => (qInv_runTrace maxQ tr initQ qInv_initQ).1
  cases items with
  | nil =>
    refine ⟨?_, ?_, ?_, ?_, htrace⟩ <;> simp [fifoRunState, enqueueAll, initQ]
  | cons a l =>
    have hlen : l.length + 1 ≤ maxQ := by simpa using h
    have hrun : fifoRunState maxQ (a :: l)
        = ⟨[], l.foldl (fun t it => t.erase it.id) (l.map (·.id)), false, [],
            [] ++ (a :: l).map (fun it => (it.id, it.outcome)),
            [a.id] ++ l.map (·.id)⟩ := by
      unfold fifoRunState
      rw [enqueueAll_init maxQ a l hlen]
      exact finish_drain l a (l.map (·.id)) [] [a.id]
    refine ⟨?_, ?_, ?_, ?_, htrace⟩ <;> simp [hrun]

theorem queue_fifo_single_flight_witness :
    demoItems.length ≤ 3
    ∧ ((fifoRunState 3 demoItems).settled = demoItems.map (fun it => (it.id, it.outcome))
      ∧ (fifoRunState 3 demoItems).executed = demoItems.map (·.id)
      ∧ (fifoRunState 3 demoItems).waiting = []
      ∧ (fifoRunState 3 demoItems).running = []
      ∧ ∀ tr : List QEvent, (runTrace 3 tr initQ).running.length ≤ 1) :=
  ⟨by decide, queue_fifo_single_flight 3 demoItems (by decide)⟩

/-! ## Timeout-versus-start race and full-queue rejection -/

theorem not_mem_map_eraseP (l : List QItem) (i : Nat)
    (h : (l.map (·.id)).count i ≤ 1) :
    i ∉ (l.eraseP (fun it => it.id == i)).map (·.id) := by
  induction l with
  | nil => simp
  | cons a t ih =>
    by_cases ha : a.id = i
    · have hstep : (a :: t).eraseP (fun it => it.id == i) = t := by
        simp [List.eraseP_cons, ha]
      rw [hstep]
      have hc : (t.map (·.id)).count i = 0 := by
        simp only [List.map_cons, List.count_cons, ha, beq_self_eq_true, if_true] at h
        omega
      exact List.count_eq_zero.mp hc
    · have hstep : (a :: t).eraseP (fun it => it.id == i)
          = a :: t.eraseP (fun it => it.id == i) := by
        simp [List.eraseP_cons, ha]
      rw [hstep]
      have ht : (t.map (·.id)).count i ≤ 1 := by
        simp only [List.map_cons, List.count_cons] at h
        omega
      simp only [List.map_cons, List.mem_cons]
      rintro (hia | hmem)
      · exact ha hia.symm
      · exact ih ht hmem

theorem processNextStart_nil (s : QState) (hw : s.waiting = []) :
    processNextStart s = s := by
  unfold processNextStart
  rw [hw]
  cases hp : s.processing <;> simp

theorem processNextStart_cons (s : QState) (item : QItem) (rest : List QItem)
    (hp : s.processing = false) (hw : s.waiting = item :: rest) :
    processNextStart s = { s with
      waiting := rest
      timers := s.timers.erase item.id
      processing := true
      running := s.running ++ [item]
      executed := s.executed ++ [item.id] } := by
  unfold processNextStart
  rw [hp, hw]
  simp

theorem pres_processNextStart (i : Nat) (s : QState)
    (h1 : i ∉ waitingIds s) (h2 : i ∉ s.executed) :
    i ∉ waitingIds (processNextStart s) ∧ i ∉ (processNextStart s).executed := by
  by_cases hp : s.processing = true
  · rw [processNextStart_of_processing s hp]; exact ⟨h1, h2⟩
  · have hp2 : s.processing = false := by simpa using hp
    cases hw : s.waiting with
    | nil => rw [processNextStart_nil s hw]; exact ⟨h1, h2⟩
    | cons item rest =>
      rw [processNextStart_cons s item rest hp2 hw]
      simp only [waitingIds, hw, List.map_cons, List.mem_cons] at h1
      push_neg at h1
      constructor
      · simpa [waitingIds] using h1.2
      · simp only [List.mem_append, List.mem_singleton]
        rintro (hmem | hEq)
        · exact h2 hmem
        · exact h1.1 hEq

theorem pres_finishRun (i : Nat) (s : QState)
    (h1 : i ∉ waitingIds s) (h2 : i ∉ s.executed) :
    i ∉ waitingIds (finishRun s) ∧ i ∉ (finishRun s).executed := by
  unfold finishRun
  cases hr : s.running with
  | nil => exact ⟨h1, h2⟩
  | cons item rest =>
    cases rest with
    | nil => exact pres_processNextStart i _ h1 h2
    | cons b t => exact ⟨h1, h2⟩

theorem pres_enqueue (maxQ : Nat) (i : Nat) (it : QItem) (s : QState)
    (hid : it.id ≠ i)
    (h1 : i ∉ waitingIds s) (h2 : i ∉ s.executed) :
    i ∉ waitingIds (enqueue maxQ it s) ∧ i ∉ (enqueue maxQ it s).executed := by
  unfold enqueue
  by_cases hf : maxQ ≤ s.waiting.length
  · simp only [hf, if_true]
    exact ⟨h1, h2⟩
  · simp only [hf, if_false]
    refine pres_processNextStart i _ ?_ h2
    simp only [waitingIds, List.map_append, List.map_cons, List.map_nil,
      List.mem_append, List.mem_singleton]
    rintro (hmem | hEq)
    · exact h1 hmem
    · exact hid hEq.symm

theorem pres_timerFire (j i : Nat) (s : QState)
    (h1 : i ∉ waitingIds s) (h2 : i ∉ s.executed) :
    i ∉ waitingIds (timerFire j s) ∧ i ∉ (timerFire j s).executed := by
  unfold timerFire
  by_cases ht : j ∈ s.timers
  · simp only [ht, if_true]
    by_cases ha : s.waiting.any (fun it => it.id == j)
    · simp only [ha, if_true]
      refine ⟨?_, h2⟩
      intro hmem
      exact h1 (((List.eraseP_sublist s.waiting).map (·.id)).subset hmem)
    · simp only [ha, if_false]
      exact ⟨h1, h2⟩
  · simp only [ht, if_false]
    exact ⟨h1, h2⟩

theorem executed_stable (maxQ : Nat) (i : Nat) (tr : List QEvent) :
    ∀ s : QState, i ∉ waitingIds s → i ∉ s.executed →
      (∀ it : QItem, QEvent.enq it ∈ tr → it.id ≠ i) →
      i ∉ waitingIds (runTrace maxQ tr s) ∧ i ∉ (runTrace maxQ tr s).executed := by
  induction tr with
  | nil => intro s h1 h2 _; exact ⟨h1, h2⟩
  | cons e tr ih =>
    intro s h1 h2 hfresh
    have hstep : i ∉ waitingIds (qStep maxQ e s) ∧ i ∉ (qStep maxQ e s).executed := by
      cases e with
      | enq it =>
        exact pres_enqueue maxQ i it s (hfresh it (by simp)) h1 h2
      | fin => exact pres_finishRun i s h1 h2
      | timer j => exact pres_timerFire j i s h1 h2
    exact ih (qStep maxQ e s) hstep.1 hstep.2
      (fun it hmem => hfresh it (List.mem_cons_of_mem _ hmem))

/-- C2: while an item is still waiting with its timer armed, a firing of
its timer removes it from the waiting list and rejects it with the
queue-timeout error, and its operation is never executed on any later
schedule that does not reuse its id; conversely a fired timer whose id is
no longer armed does nothing, and when the worker dequeues the head its
timer is disarmed, after which a firing of that timer has no effect. -/
theorem queue_timeout_start_race (maxQ : Nat) (s : QState) (i : Nat)
    (tr : List QEvent)
    (harm : i ∈ s.timers)
    (hwait : i ∈ waitingIds s)
    (hcount : (waitingIds s).count i ≤ 1)
    (hnx : i ∉ s.executed)
    (hfresh : ∀ it : QItem, QEvent.enq it ∈ tr → it.id ≠ i) :
    ((timerFire i s).settled = s.settled ++ [(i, Outcome.queueTimeout)]
      ∧ i ∉ waitingIds (timerFire i s)
      ∧ (timerFire i s).executed = s.executed
      ∧ i ∉ (runTrace maxQ tr (timerFire i s)).executed)
    ∧ (∀ t : QState, i ∉ t.timers → timerFire i t = t)
    ∧ (∀ (t : QState) (item : QItem) (rest : List QItem),
        t.processing = false → t.waiting = item :: rest →
        t.timers.count item.id ≤ 1 →
        item.id ∉ (processNextStart t).timers
          ∧ timerFire item.id (processNextStart t) = processNextStart t) := by
  have hany : s.waiting.any (fun it => it.id == i) = true := by
    simp only [waitingIds, List.mem_map] at hwait
    obtain ⟨it, hin, hid⟩ := hwait
    exact List.any_eq_true.mpr ⟨it, hin, by simp [hid]⟩
  have heq : timerFire i s = { s with
      timers := s.timers.erase i
      waiting := s.waiting.eraseP (fun it => it.id == i)
      settled := s.settled ++ [(i, Outcome.queueTimeout)] } := by
    unfold timerFire
    simp only [harm, if_true, hany]
  have hnw : i ∉ waitingIds (timerFire i s) := by
    rw [heq]
    simpa [waitingIds] using
      not_mem_map_eraseP s.waiting i (by simpa [waitingIds] using hcount)
  refine ⟨⟨by rw [heq], hnw, by rw [heq], ?_⟩, ?_, ?_⟩
  · exact (executed_stable maxQ i tr (timerFire i s) hnw
      (by rw [heq]; exact hnx) hfresh).2
  · intro t htm
    simp [timerFire, htm]
  · intro t item rest hp hw hc
    have heq2 := processNextStart_cons t item rest hp hw
    have hnt : item.id ∉ (processNextStart t).timers := by
      rw [heq2]
      intro hmem
      have hsub : (t.timers.erase item.id).count item.id
          = t.timers.count item.id - 1 := List.count_erase_self item.id t.timers
      have hpos : 0 < (t.timers.erase item.id).count item.id :=
        List.count_pos_iff.mpr hmem
      omega
    exact ⟨hnt, by simp [timerFire, hnt]⟩

theorem queue_timeout_start_race_witness :
    (3 ∈ (enqueueAll 3 demoItems initQ).timers
      ∧ 3 ∈ waitingIds (enqueueAll 3 demoItems initQ)
      ∧ (waitingIds (enqueueAll 3 demoItems initQ)).count 3 ≤ 1
      ∧ 3 ∉ (enqueueAll 3 demoItems initQ).executed
      ∧ ∀ it : QItem, QEvent.enq it ∈ ([.fin, .fin] : List QEvent) → it.id ≠ 3)
    ∧ (((timerFire 3 (enqueueAll 3 demoItems initQ)).settled
          = (enqueueAll 3 demoItems initQ).settled ++ [(3, Outcome.queueTimeout)]
        ∧ 3 ∉ waitingIds (timerFire 3 (enqueueAll 3 demoItems initQ))
        ∧ (timerFire 3 (enqueueAll 3 demoItems initQ)).executed
            = (enqueueAll 3 demoItems initQ).executed
        ∧ 3 ∉ (runTrace 3 [.fin, .fin] (timerFire 3 (enqueueAll 3 demoItems initQ))).executed)
      ∧ (∀ t : QState, 3 ∉ t.timers → timerFire 3 t = t)
      ∧ (∀ (t : QState) (item : QItem) (rest : List QItem),
          t.processing = false → t.waiting = item :: rest →
          t.timers.count item.id ≤ 1 →
          item.id ∉ (processNextStart t).timers
            ∧ timerFire item.id (processNextStart t) = processNextStart t)) :=
  ⟨⟨by decide, by decide, by decide, by decide, by intro it hmem; simp at hmem⟩,
    queue_timeout_start_race 3 (enqueueAll 3 demoItems initQ) 3 [.fin, .fin]
      (by decide) (by decide) (by decide) (by decide)
      (by intro it hmem; simp at hmem)⟩

/-- C3: an enqueue issued while the waiting list is at or above the
configured maximum fails at once with the queue-full error, leaves every
part of the queue state untouched apart from that rejection, and the
rejected operation is never executed on any later schedule that does not
reuse its id. -/
theorem queue_full_rejects_immediately (maxQ : Nat) (s : QState) (it : QItem)
    (tr : List QEvent)
    (hfull : maxQ ≤ s.waiting.length)
    (hid : it.id ∉ waitingIds s)
    (hnx : it.id ∉ s.executed)
    (hfresh : ∀ it2 : QItem, QEvent.enq it2 ∈ tr → it2.id ≠ it.id) :
    (enqueue maxQ it s).waiting = s.waiting
    ∧ (enqueue maxQ it s).timers = s.timers
    ∧ (enqueue maxQ it s).processing = s.processing
    ∧ (enqueue maxQ it s).running = s.running
    ∧ (enqueue maxQ it s).executed = s.executed
    ∧ (enqueue maxQ it s).settled = s.settled ++ [(it.id, Outcome.queueFull)]
    ∧ it.id ∉ (runTrace maxQ tr (enqueue maxQ it s)).executed := by
  have heq : enqueue maxQ it s
      = { s with settled := s.settled ++ [(it.id, Outcome.queueFull)] } := by
    simp [enqueue, hfull]
  have h1 : it.id ∉ waitingIds (enqueue maxQ it s) := by
    rw [heq]
    simpa [waitingIds] using hid
  refine ⟨by rw [heq], by rw [heq], by rw [heq], by rw [heq], by rw [heq],
    by rw [heq], ?_⟩
  exact (executed_stable maxQ it.id tr _ h1 (by rw [heq]; exact hnx) hfresh).2

theorem queue_full_rejects_immediately_witness :
    (1 ≤ (enqueueAll 1 [⟨1, .ok 10⟩, ⟨2, .ok 2⟩] initQ).waiting.length
      ∧ 9 ∉ waitingIds (enqueueAll 1 [⟨1, .ok 10⟩, ⟨2, .ok 2⟩] initQ)
      ∧ 9 ∉ (enqueueAll 1 [⟨1, .ok 10⟩, ⟨2, .ok 2⟩] initQ).executed
      ∧ ∀ it2 : QItem, QEvent.enq it2 ∈ ([.fin, .timer 2, .fin] : List QEvent) → it2.id ≠ 9)
    ∧ ((enqueue 1 ⟨9, .ok 0⟩ (enqueueAll 1 [⟨1, .ok 10⟩, ⟨2, .ok 2⟩] initQ)).waiting
          = (enqueueAll 1 [⟨1, .ok 10⟩, ⟨2, .ok 2⟩] initQ).waiting
      ∧ (enqueue 1 ⟨9, .ok 0⟩ (enqueueAll 1 [⟨1, .ok 10⟩, ⟨2, .ok 2⟩] initQ)).timers
          = (enqueueAll 1 [⟨1, .ok 10⟩, ⟨2, .ok 2⟩] initQ).timers
      ∧ (enqueue 1 ⟨9, .ok 0⟩ (enqueueAll 1 [⟨1, .ok 10⟩, ⟨2, .ok 2⟩] initQ)).processing
          = (enqueueAll 1 [⟨1, .ok 10⟩, ⟨2, .ok 2⟩] initQ).processing
      ∧ (enqueue 1 ⟨9, .ok 0⟩ (enqueueAll 1 [⟨1, .ok 10⟩, ⟨2, .ok 2⟩] initQ)).running
          = (enqueueAll 1 [⟨1, .ok 10⟩, ⟨2, .ok 2⟩] initQ).running
      ∧ (enqueue 1 ⟨9, .ok 0⟩ (enqueueAll 1 [⟨1, .ok 10⟩, ⟨2, .ok 2⟩] initQ)).executed
          = (enqueueAll 1 [⟨1, .ok 10⟩, ⟨2, .ok 2⟩] initQ).executed
      ∧ (enqueue 1 ⟨9, .ok 0⟩ (enqueueAll 1 [⟨1, .ok 10⟩, ⟨2, .ok 2⟩] initQ)).settled
          = (enqueueAll 1 [⟨1, .ok 10⟩, ⟨2, .ok 2⟩] initQ).settled ++ [(9, Outcome.queueFull)]
      ∧ 9 ∉ (runTrace 1 [.fin, .timer 2, .fin]
          (enqueue 1 ⟨9, .ok 0⟩ (enqueueAll 1 [⟨1, .ok 10⟩, ⟨2, .ok 2⟩] initQ))).executed) :=
  ⟨⟨by decide, by decide, by decide, by intro it2 hmem; simp at hmem⟩,
    queue_full_rejects_immediately 1 (enqueueAll 1 [⟨1, .ok 10⟩, ⟨2, .ok 2⟩] initQ)
      ⟨9, .ok 0⟩ [.fin, .timer 2, .fin] (by decide) (by decide) (by decide)
      (by intro it2 hmem; simp at hmem)⟩

/-! ## Capacity eviction picks the first-encountered oldest session -/

theorem getOldestSession_cons (l : List Session) :
    ∀ x : Session, getOldestSession (x :: l) = some (oldestFrom x l) := by
  induction l with
  | nil => intro x; rfl
  | cons c t ih =>
    intro x
    by_cases h : c.lastActivityAt < x.lastActivityAt
    · have h1 : oldestFrom x (c :: t) = oldestFrom c t := by
        simp [oldestFrom, h]
      have h2 : getOldestSession (x :: c :: t) = getOldestSession (c :: t) := by
        simp [getOldestSession, h]
      rw [h1, h2, ih c]
    · have h1 : oldestFrom x (c :: t) = oldestFrom x t := by
        simp [oldestFrom, h]
      have h2 : getOldestSession (x :: c :: t) = getOldestSession (x :: t) := by
        simp [getOldestSession, h]
      rw [h1, h2, ih x]

theorem oldestFrom_spec (l : List Session) :
    ∀ o : Session,
      (oldestFrom o l = o ∧ ∀ s ∈ l, o.lastActivityAt ≤ s.lastActivityAt)
      ∨ ∃ a b, l = a ++ oldestFrom o l :: b
          ∧ (oldestFrom o l).lastActivityAt < o.lastActivityAt
          ∧ (∀ s ∈ a, (oldestFrom o l).lastActivityAt < s.lastActivityAt)
          ∧ (∀ s ∈ b, (oldestFrom o l).lastActivityAt ≤ s.lastActivityAt) := by
  induction l with
  | nil => intro o; left; exact ⟨rfl, by simp⟩
  | cons c t ih =>
    intro o
    by_cases h : c.lastActivityAt < o.lastActivityAt
    · have hfold : oldestFrom o (c :: t) = oldestFrom c t := by
        simp [oldestFrom, h]
      rcases ih c with ⟨heq, hall⟩ | ⟨a, b, hsplit, hlt, hpre, hpost⟩
      · right
        refine ⟨[], t, ?_, ?_, by simp, ?_⟩
        · rw [hfold, heq]; simp
        · rw [hfold, heq]; exact h
        · intro s hs; rw [hfold, heq]; exact hall s hs
      · right
        refine ⟨c :: a, b, ?_, ?_, ?_, ?_⟩
        · rw [hfold]
          simp only [List.cons_append]
          exact congrArg (List.cons c) hsplit
        · rw [hfold]; exact hlt.trans h
        · intro s hs
          rcases List.mem_cons.mp hs with rfl | hsa
          · rw [hfold]; exact hlt
          · rw [hfold]; exact hpre s hsa
        · intro s hs; rw [hfold]; exact hpost s hs
    · have hfold : oldestFrom o (c :: t) = oldestFrom o t := by
        simp [oldestFrom, h]
      have hle : o.lastActivityAt ≤ c.lastActivityAt := Nat.le_of_not_lt h
      rcases ih o with ⟨heq, hall⟩ | ⟨a, b, hsplit, hlt, hpre, hpost⟩
      · left
        refine ⟨by rw [hfold, heq], ?_⟩
        intro s hs
        rcases List.mem_cons.mp hs with rfl | hst
        · exact hle
        · exact hall s hst
      · right
        refine ⟨c :: a, b, ?_, ?_, ?_, ?_⟩
        · rw [hfold]
          simp only [List.cons_append]
          exact congrArg (List.cons c) hsplit
        · rw [hfold]; exact hlt
        · intro s hs
          rcases List.mem_cons.mp hs with rfl | hsa
          · rw [hfold]; exact Nat.lt_of_lt_of_le hlt hle
          · rw [hfold]; exact hpre s hsa
        · intro s hs; rw [hfold]; exact hpost s hs

theorem getOldestSession_split (ss : List Session) (hne : ss ≠ []) :
    ∃ a o b, getOldestSession ss = some o ∧ ss = a ++ o :: b
      ∧ (∀ s ∈ a, o.lastActivityAt < s.lastActivityAt)
      ∧ (∀ s ∈ b, o.lastActivityAt ≤ s.lastActivityAt) := by
  cases ss with
  | nil => exact absurd rfl hne
  | cons x l =>
    rw [getOldestSession_cons l x]
    rcases oldestFrom_spec l x with ⟨heq, hall⟩ | ⟨a, b, hsplit, hlt, hpre, hpost⟩
    · refine ⟨[], oldestFrom x l, l, rfl, by rw [heq]; simp, by simp, ?_⟩
      intro s hs; rw [heq]; exact hall s hs
    · refine ⟨x :: a, oldestFrom x l, b, rfl, ?_, ?_, hpost⟩
      · simp only [List.cons_append]
        exact congrArg (List.cons x) hsplit
      · intro s hs
        rcases List.mem_cons.mp hs with rfl | hsa
        · exact hlt
        · exact hpre s hsa

/-- C4: a creation issued at capacity whose idle sweep leaves the registry
still at capacity closes exactly the first-encountered session with the
smallest last-activity timestamp — the registry after creation is the swept
registry with only that session removed, plus the fresh session. -/
theorem createSession_evicts_first_oldest (now freshId : Nat) (ss : List Session)
    (hfull : sessionsMax ≤ ss.length)
    (hstill : sessionsMax ≤ (cleanupExpiredSessions now ss).length)
    (hnodup : ((cleanupExpiredSessions now ss).map (·.id)).Nodup) :
    ∃ a o b, cleanupExpiredSessions now ss = a ++ o :: b
      ∧ getOldestSession (cleanupExpiredSessions now ss) = some o
      ∧ (∀ s ∈ a, o.lastActivityAt < s.lastActivityAt)
      ∧ (∀ s ∈ b, o.lastActivityAt ≤ s.lastActivityAt)
      ∧ (createSession now freshId ss).2 = (a ++ b) ++ [⟨freshId, now, now, 0⟩] := by
  have hne : cleanupExpiredSessions now ss ≠ [] := by
    intro h
    rw [h] at hstill
    simp [sessionsMax] at hstill
  obtain ⟨a, o, b, hget, hsplit, hpre, hpost⟩ := getOldestSession_split _ hne
  refine ⟨a, o, b, hsplit, hget, hpre, hpost, ?_⟩
  have hrm : removeSession (cleanupExpiredSessions now ss) o.id = a ++ b := by
    rw [removeSession, hsplit]
    have hida : ∀ s ∈ a, ¬((fun s => s.id == o.id) s = true) := by
      intro s hsa hbeq
      simp only [beq_iff_eq] at hbeq
      rw [hsplit] at hnodup
      simp only [List.map_append, List.map_cons] at hnodup
      rcases List.nodup_append.mp hnodup with ⟨_, _, hdisj⟩
      exact hdisj (List.mem_map.mpr ⟨s, hsa, rfl⟩) (by simp [hbeq])
    rw [List.eraseP_append_right _ hida]
    simp [List.eraseP_cons]
  have hcr : (createSession now freshId ss).2
      = removeSession (cleanupExpiredSessions now ss) o.id ++ [⟨freshId, now, now, 0⟩] := by
    simp only [createSession, if_pos hfull, if_pos hstill, hget]
  rw [hcr, hrm]

theorem createSession_evicts_first_oldest_witness :
    (sessionsMax ≤ demoRegistry.length
      ∧ sessionsMax ≤ (cleanupExpiredSessions 1000 demoRegistry).length
      ∧ ((cleanupExpiredSessions 1000 demoRegistry).map (·.id)).Nodup)
    ∧ (∃ a o b, cleanupExpiredSessions 1000 demoRegistry = a ++ o :: b
        ∧ getOldestSession (cleanupExpiredSessions 1000 demoRegistry) = some o
        ∧ (∀ s ∈ a, o.lastActivityAt < s.lastActivityAt)
        ∧ (∀ s ∈ b, o.lastActivityAt ≤ s.lastActivityAt)
        ∧ (createSession 1000 11 demoRegistry).2 = (a ++ b) ++ [⟨11, 1000, 1000, 0⟩]) :=
  ⟨⟨by decide, by decide, by decide⟩,
    createSession_evicts_first_oldest 1000 11 demoRegistry
      (by decide) (by decide) (by decide)⟩

/-! ## Handler validation: unsupported model, missing user message -/

/-- C8: a request passing the earlier validations whose model field is a
non-empty unrecognised string is rejected 400 model_not_found without
touching the registry or enqueuing work, and the error message enumerates
all five supported model names. -/
theorem model_not_found_rejection (req : ChatRequest) (now freshId : Nat)
    (ss : List Session) (m : String)
    (hmsgs : req.messages ≠ [])
    (hstream : req.stream = false)
    (hm : req.model = some m)
    (hne : m ≠ "")
    (hinvalid : isValidModel m = false) :
    (handleChatCompletionPre req now freshId ss).1
      = HandlerAction.reject 400 "model_not_found" (modelNotFoundMessage m)
    ∧ (handleChatCompletionPre req now freshId ss).2 = ss
    ∧ modelNotFoundMessage m
      = ("Model \x27" ++ m) ++ "\x27 is not supported. Available models: copilot-auto, copilot-quick, copilot-think, gpt-5.2-quick, gpt-5.2-think" := by
  have hempty : req.messages.isEmpty = false := by
    cases hmm : req.messages with
    | nil => exact absurd hmm hmsgs
    | cons a t => rfl
  have hcheck : modelCheckFails req.model = true := by
    rw [hm]
    simp [modelCheckFails, hinvalid, hne]
  have heq : handleChatCompletionPre req now freshId ss
      = (.reject 400 "model_not_found" (modelNotFoundMessage (req.model.getD "")), ss) := by
    unfold handleChatCompletionPre
    rw [hempty, hstream, hcheck]
    simp
  have hmsg : modelNotFoundMessage m
      = ("Model \x27" ++ m) ++ "\x27 is not supported. Available models: copilot-auto, copilot-quick, copilot-think, gpt-5.2-quick, gpt-5.2-think" := by
    unfold modelNotFoundMessage
    rw [String.append_assoc]
    have hsuf : "\x27 is not supported. Available models: "
        ++ String.intercalate ", " availableModelNames
        = "\x27 is not supported. Available models: copilot-auto, copilot-quick, copilot-think, gpt-5.2-quick, gpt-5.2-think" := by
      decide
    rw [hsuf]
  refine ⟨?_, ?_, hmsg⟩
  · rw [heq, hm]
    exact rfl
  · rw [heq]

theorem model_not_found_rejection_witness :
    (([⟨Role.user, "hi"⟩] : List Msg) ≠ []
      ∧ false = false
      ∧ (some "not-a-real-model" : Option String) = some "not-a-real-model"
      ∧ "not-a-real-model" ≠ ""
      ∧ isValidModel "not-a-real-model" = false)
    ∧ ((handleChatCompletionPre ⟨some "not-a-real-model", [⟨Role.user, "hi"⟩], none, false⟩ 0 5 []).1
        = HandlerAction.reject 400 "model_not_found" (modelNotFoundMessage "not-a-real-model")
      ∧ (handleChatCompletionPre ⟨some "not-a-real-model", [⟨Role.user, "hi"⟩], none, false⟩ 0 5 []).2 = []
      ∧ modelNotFoundMessage "not-a-real-model"
        = ("Model \x27" ++ "not-a-real-model") ++ "\x27 is not supported. Available models: copilot-auto, copilot-quick, copilot-think, gpt-5.2-quick, gpt-5.2-think") :=
  ⟨⟨by decide, rfl, rfl, by decide, by decide⟩,
    model_not_found_rejection ⟨some "not-a-real-model", [⟨Role.user, "hi"⟩], none, false⟩
      0 5 [] "not-a-real-model" (by decide) rfl rfl (by decide) (by decide)⟩

/-- C10 as stated is false: the handler does reject 400 no_user_message
without enqueuing, but the registry is not left unchanged — resolving the
existing session already bumped its last-activity timestamp. -/
theorem no_user_message_counterexample :
    (handleChatCompletionPre ⟨none, [⟨Role.system, "sys"⟩], some 7, false⟩ 5 99
        [⟨7, 0, 0, 1⟩]).1
      = HandlerAction.reject 400 "no_user_message" "No user message found in messages array"
    ∧ (handleChatCompletionPre ⟨none, [⟨Role.system, "sys"⟩], some 7, false⟩ 5 99
        [⟨7, 0, 0, 1⟩]).2
      ≠ [⟨7, 0, 0, 1⟩] :=
  ⟨by decide, by decide⟩

/-- C10 amended: reusing a session with positive message count on a request
without any user-role message yields 400 no_user_message, nothing is
enqueued, and the registry keeps the same sessions and message counts,
with only the reused session's last-activity timestamp refreshed. -/
theorem no_user_message_rejection (req : ChatRequest) (now freshId : Nat)
    (ss : List Session) (sid : Nat) (s0 : Session)
    (hmsgs : req.messages ≠ [])
    (hstream : req.stream = false)
    (hmodel : modelCheckFails req.model = false)
    (hsid : req.session_id = some sid)
    (hfind : ss.find? (fun t => t.id == sid) = some s0)
    (hcount : s0.messageCount ≠ 0)
    (hnouser : ∀ msg ∈ req.messages, msg.role ≠ Role.user) :
    (handleChatCompletionPre req now freshId ss).1
      = HandlerAction.reject 400 "no_user_message" "No user message found in messages array"
    ∧ (handleChatCompletionPre req now freshId ss).2
      = ss.map (fun t => if t.id == sid then { t with lastActivityAt := now } else t) := by
  have hempty : req.messages.isEmpty = false := by
    cases hmm : req.messages with
    | nil => exact absurd hmm hmsgs
    | cons a t => rfl
  have hgoc : getOrCreateSession now freshId req.session_id ss
      = ({ s0 with lastActivityAt := now },
          ss.map (fun t => if t.id == sid then { t with lastActivityAt := now } else t)) := by
    simp only [getOrCreateSession, hsid, hfind]
  have hfirst : (({ s0 with lastActivityAt := now } : Session).messageCount == 0) = false := by
    simp [hcount]
  have hfind2 : req.messages.reverse.find? (fun msg => msg.role == Role.user) = none := by
    apply List.find?_eq_none.mpr
    intro msg hmem
    simp [hnouser msg (List.mem_reverse.mp hmem)]
  unfold handleChatCompletionPre
  rw [hempty, hstream, hmodel, hgoc]
  simp only [Bool.false_eq_true, if_false, hfirst, hfind2]
  simp

theorem no_user_message_rejection_witness :
    (([⟨Role.system, "sys"⟩] : List Msg) ≠ []
      ∧ false = false
      ∧ modelCheckFails none = false
      ∧ (some 7 : Option Nat) = some 7
      ∧ ([⟨7, 0, 0, 1⟩] : List Session).find? (fun t => t.id == 7) = some ⟨7, 0, 0, 1⟩
      ∧ (⟨7, 0, 0, 1⟩ : Session).messageCount ≠ 0
      ∧ ∀ msg ∈ ([⟨Role.system, "sys"⟩] : List Msg), msg.role ≠ Role.user)
    ∧ ((handleChatCompletionPre ⟨none, [⟨Role.system, "sys"⟩], some 7, false⟩ 5 99
          [⟨7, 0, 0, 1⟩]).1
        = HandlerAction.reject 400 "no_user_message" "No user message found in messages array"
      ∧ (handleChatCompletionPre ⟨none, [⟨Role.system, "sys"⟩], some 7, false⟩ 5 99
          [⟨7, 0, 0, 1⟩]).2
        = ([⟨7, 0, 0, 1⟩] : List Session).map
            (fun t => if t.id == 7 then { t with lastActivityAt := 5 } else t)) :=
  ⟨⟨by decide, rfl, by decide, rfl, by decide, by decide, by decide⟩,
    no_user_message_rejection ⟨none, [⟨Role.system, "sys"⟩], some 7, false⟩ 5 99
      [⟨7, 0, 0, 1⟩] 7 ⟨7, 0, 0, 1⟩ (by decide) rfl (by decide) rfl (by decide)
      (by decide) (by decide)⟩

/-! ## Message-count accounting -/

theorem find?_map_of_id (f : Session → Session) (hid : ∀ s, (f s).id = s.id)
    (ss : List Session) (i : Nat) :
    (ss.map f).find? (fun s => s.id == i) = (ss.find? (fun s => s.id == i)).map f := by
  induction ss with
  | nil => rfl
  | cons a t ih =>
    by_cases h : a.id = i
    · simp [List.find?_cons, hid a, h]
    · simp [List.find?_cons, hid a, h, ih]

theorem find?_sublist_eq (t ss : List Session) (hsub : t.Sublist ss)
    (hnodup : (ss.map (·.id)).Nodup) (i : Nat) (s s' : Session)
    (hs : ss.find? (fun x => x.id == i) = some s)
    (hs' : t.find? (fun x => x.id == i) = some s') : s' = s := by
  have hmem' : s' ∈ ss := hsub.subset (List.mem_of_find?_eq_some hs')
  have hmem : s ∈ ss := List.mem_of_find?_eq_some hs
  have hid' : s'.id = i := by simpa using List.find?_some hs'
  have hid0 : s.id = i := by simpa using List.find?_some hs
  exact List.inj_on_of_nodup_map hnodup hmem' hmem (by rw [hid', hid0])

theorem foldl_removeSession_sublist (ids : List Nat) :
    ∀ ss : List Session, (ids.foldl removeSession ss).Sublist ss := by
  induction ids with
  | nil => intro ss; exact List.Sublist.refl ss
  | cons i t ih =>
    intro ss
    exact (ih (removeSession ss i)).trans (List.eraseP_sublist ss)

theorem cleanup_sublist (now : Nat) (ss : List Session) :
    (cleanupExpiredSessions now ss).Sublist ss :=
  foldl_removeSession_sublist _ ss

theorem createSession_registry_split (now freshId : Nat) (ss : List Session) :
    ∃ base : List Session,
      (createSession now freshId ss).2 = base ++ [⟨freshId, now, now, 0⟩]
      ∧ base.Sublist ss := by
  by_cases h1 : sessionsMax ≤ ss.length
  · by_cases h2 : sessionsMax ≤ (cleanupExpiredSessions now ss).length
    · cases hget : getOldestSession (cleanupExpiredSessions now ss) with
      | none =>
        refine ⟨cleanupExpiredSessions now ss, ?_, cleanup_sublist now ss⟩
        simp only [createSession, if_pos h1, if_pos h2, hget]
      | some o =>
        refine ⟨removeSession (cleanupExpiredSessions now ss) o.id, ?_,
          (List.eraseP_sublist _).trans (cleanup_sublist now ss)⟩
        simp only [createSession, if_pos h1, if_pos h2, hget]
    · refine ⟨cleanupExpiredSessions now ss, ?_, cleanup_sublist now ss⟩
      simp only [createSession, if_pos h1, if_neg h2]
  · refine ⟨ss, ?_, List.Sublist.refl ss⟩
    simp only [createSession, if_neg h1]

theorem createSession_find_eq (now freshId : Nat) (ss : List Session) (i : Nat)
    (s s' : Session)
    (hnodup : (ss.map (·.id)).Nodup)
    (hfresh : freshId ∉ ss.map (·.id))
    (hs : ss.find? (fun t => t.id == i) = some s)
    (hs' : ((createSession now freshId ss).2).find? (fun t => t.id == i) = some s') :
    s' = s := by
  obtain ⟨base, heq, hsub⟩ := createSession_registry_split now freshId ss
  rw [heq, List.find?_append] at hs'
  cases hb : base.find? (fun t => t.id == i) with
  | some x =>
    rw [hb] at hs'
    simp only [Option.or_some, Option.some.injEq] at hs'
    exact hs' ▸ find?_sublist_eq base ss hsub hnodup i s x hs hb
  | none =>
    rw [hb] at hs'
    simp only [Option.none_or] at hs'
    by_cases hfi : freshId = i
    · exfalso
      have hmem : s ∈ ss := List.mem_of_find?_eq_some hs
      have hid0 : s.id = i := by simpa using List.find?_some hs
      exact hfresh (List.mem_map.mpr ⟨s, hmem, by rw [hid0, hfi]⟩)
    · exfalso
      simp [List.find?_cons, hfi] at hs'

theorem touch_count_mono (now sid : Nat) (ss : List Session) (i : Nat)
    (s s' : Session)
    (hs : ss.find? (fun t => t.id == i) = some s)
    (hs' : (touchSession now sid ss).find? (fun t => t.id == i) = some s') :
    s.messageCount ≤ s'.messageCount := by
  unfold touchSession at hs'
  by_cases hany : ss.any (fun t => t.id == sid) = true
  · rw [if_pos hany,
      find?_map_of_id
        (fun t => if t.id == sid then
          { t with lastActivityAt := now, messageCount := t.messageCount + 1 } else t)
        (fun t => by by_cases h : t.id = sid <;> simp [h]) ss i,
      hs] at hs'
    simp only [Option.map_some', Option.some.injEq] at hs'
    rw [← hs']
    by_cases h : s.id = sid <;> simp [h]
  · rw [if_neg hany, hs] at hs'
    simp only [Option.some.injEq] at hs'
    rw [hs']

theorem mgrOp_count_mono (op : MgrOp) (ss : List Session) (i : Nat)
    (s s' : Session)
    (hnodup : (ss.map (·.id)).Nodup)
    (hfresh : opFreshId op ss)
    (hs : ss.find? (fun t => t.id == i) = some s)
    (hs' : (applyMgrOp op ss).find? (fun t => t.id == i) = some s') :
    s.messageCount ≤ s'.messageCount := by
  cases op with
  | create now fresh =>
    have heq := createSession_find_eq now fresh ss i s s' hnodup hfresh hs hs'
    rw [heq]
  | getOrCreate now fresh sid? =>
    cases sid? with
    | none =>
      simp only [applyMgrOp, getOrCreateSession] at hs'
      have heq := createSession_find_eq now fresh ss i s s' hnodup hfresh hs hs'
      rw [heq]
    | some sid =>
      cases hf : ss.find? (fun t => t.id == sid) with
      | some s0 =>
        simp only [applyMgrOp, getOrCreateSession, hf] at hs'
        rw [find?_map_of_id
            (fun t => if t.id == sid then { t with lastActivityAt := now } else t)
            (fun t => by by_cases h : t.id = sid <;> simp [h]) ss i,
          hs] at hs'
        simp only [Option.map_some', Option.some.injEq] at hs'
        rw [← hs']
        by_cases h : s.id = sid <;> simp [h]
      | none =>
        simp only [applyMgrOp, getOrCreateSession, hf] at hs'
        have heq := createSession_find_eq now fresh ss i s s' hnodup hfresh hs hs'
        rw [heq]
  | touch now sid =>
    exact touch_count_mono now sid ss i s s' hs hs'
  | close sid =>
    simp only [applyMgrOp, closeSession] at hs'
    by_cases hany : ss.any (fun t => t.id == sid) = true
    · rw [if_pos hany] at hs'
      have heq := find?_sublist_eq (removeSession ss sid) ss
        (List.eraseP_sublist ss) hnodup i s s' hs hs'
      rw [heq]
    · rw [if_neg hany, hs] at hs'
      simp only [Option.some.injEq] at hs'
      rw [hs']
  | cleanup now =>
    have heq := find?_sublist_eq (cleanupExpiredSessions now ss) ss
      (cleanup_sublist now ss) hnodup i s s' hs hs'
    rw [heq]
  | exchange now sid out =>
    cases out with
    | ok r =>
      exact touch_count_mono now sid ss i s s' hs hs'
    | error e =>
      simp only [applyMgrOp, handleExchangeOutcome] at hs'
      rw [hs] at hs'
      simp only [Option.some.injEq] at hs'
      rw [hs']

/-- C9: a successful queued exchange leads to exactly one increment of the
session's message count (and refreshes its activity) while all other
sessions are untouched; a failed exchange leaves the registry unchanged;
and under no manager or handler operation with fresh creation ids does a
surviving session's message count ever decrease. -/
theorem messageCount_increment_and_monotone :
    (∀ (now sid : Nat) (r : String) (ss : List Session) (s0 : Session),
        ss.find? (fun t => t.id == sid) = some s0 →
        (handleExchangeOutcome now sid (.ok r) ss).find? (fun t => t.id == sid)
          = some { s0 with lastActivityAt := now, messageCount := s0.messageCount + 1 }
        ∧ ∀ s ∈ ss, s.id ≠ sid → s ∈ handleExchangeOutcome now sid (.ok r) ss)
    ∧ (∀ (now sid : Nat) (e : String) (ss : List Session),
        handleExchangeOutcome now sid (.error e) ss = ss)
    ∧ (∀ (op : MgrOp) (ss : List Session) (i : Nat) (s s' : Session),
        (ss.map (·.id)).Nodup → opFreshId op ss →
        ss.find? (fun t => t.id == i) = some s →
        (applyMgrOp op ss).find? (fun t => t.id == i) = some s' →
        s.messageCount ≤ s'.messageCount) := by
  refine ⟨?_, ?_, ?_⟩
  · intro now sid r ss s0 hfind
    have hpred := List.find?_some hfind
    have hany : ss.any (fun t => t.id == sid) = true :=
      List.any_eq_true.mpr ⟨s0, List.mem_of_find?_eq_some hfind, hpred⟩
    constructor
    · show (touchSession now sid ss).find? (fun t => t.id == sid) = _
      unfold touchSession
      rw [if_pos hany,
        find?_map_of_id
          (fun t => if t.id == sid then
            { t with lastActivityAt := now, messageCount := t.messageCount + 1 } else t)
          (fun t => by by_cases h : t.id = sid <;> simp [h]) ss sid,
        hfind]
      have hid0 : s0.id = sid := by simpa using hpred
      simp [hid0]
    · intro s hs hne
      show s ∈ touchSession now sid ss
      unfold touchSession
      rw [if_pos hany]
      exact List.mem_map.mpr ⟨s, hs, by simp [hne]⟩
  · intro now sid e ss
    rfl
  · intro op ss i s s' hnodup hfresh hs hs'
    exact mgrOp_count_mono op ss i s s' hnodup hfresh hs hs'

theorem messageCount_increment_and_monotone_witness :
    (([⟨7, 0, 0, 1⟩] : List Session).find? (fun t => t.id == 7) = some ⟨7, 0, 0, 1⟩
      ∧ (([⟨7, 0, 0, 1⟩] : List Session).map (·.id)).Nodup
      ∧ opFreshId (MgrOp.touch 9 7) [⟨7, 0, 0, 1⟩]
      ∧ (applyMgrOp (MgrOp.touch 9 7) [⟨7, 0, 0, 1⟩]).find? (fun t => t.id == 7)
          = some ⟨7, 0, 9, 2⟩)
    ∧ ((handleExchangeOutcome 9 7 (.ok "resp") [⟨7, 0, 0, 1⟩]).find? (fun t => t.id == 7)
        = some ⟨7, 0, 9, 2⟩
      ∧ handleExchangeOutcome 9 7 (.error "boom") [⟨7, 0, 0, 1⟩] = [⟨7, 0, 0, 1⟩]
      ∧ (⟨7, 0, 0, 1⟩ : Session).messageCount ≤ (⟨7, 0, 9, 2⟩ : Session).messageCount) :=
  ⟨⟨by decide, by decide, trivial, by decide⟩,
    (messageCount_increment_and_monotone.1 9 7 "resp" [⟨7, 0, 0, 1⟩] ⟨7, 0, 0, 1⟩
      (by decide)).1,
    messageCount_increment_and_monotone.2.1 9 7 "boom" [⟨7, 0, 0, 1⟩],
    messageCount_increment_and_monotone.2.2 (MgrOp.touch 9 7) [⟨7, 0, 0, 1⟩] 7
      ⟨7, 0, 0, 1⟩ ⟨7, 0, 9, 2⟩ (by decide) trivial (by decide) (by decide)⟩

/-! ## Model-selection failures are swallowed -/

theorem selectModelAttempt_cases (env : SelectEnv) (model cur : CopilotModel)
    (hfail : env.modelButtonPresent = false
      ∨ env.modelButtonClickOk = false
      ∨ env.optionAppears = false
      ∨ env.optionClickOk = false
      ∨ (modelsInMoreSection model = true ∧ env.moreButtonPresent = true
          ∧ env.moreButtonClickOk = false)) :
    selectModelAttempt env model cur = .ok (false, cur)
    ∨ ∃ e, selectModelAttempt env model cur = .error e := by
  by_cases c1 : env.modelButtonPresent = false
  · left
    simp [selectModelAttempt, c1]
  · by_cases c2 : env.modelButtonClickOk = false
    · right
      exact ⟨.clickFailed, by simp [selectModelAttempt, c1, c2]⟩
    · by_cases c3 : (modelsInMoreSection model && env.moreButtonPresent
          && !env.moreButtonClickOk) = true
      · right
        exact ⟨.clickFailed, by simp [selectModelAttempt, c1, c2, c3]⟩
      · by_cases c4 : env.optionAppears = false
        · right
          exact ⟨.optionTimeout, by simp [selectModelAttempt, c1, c2, c3, c4]⟩
        · by_cases c5 : env.optionClickOk = false
          · right
            exact ⟨.clickFailed, by simp [selectModelAttempt, c1, c2, c3, c4, c5]⟩
          · exfalso
            rcases hfail with h | h | h | h | ⟨h1, h2, h3⟩
            · exact c1 h
            · exact c2 h
            · exact c4 h
            · exact c5 h
            · exact c3 (by simp [h1, h2, h3])

/-- C5: on a first message, any of the enumerated model-selection failures
(selector button absent, button or option click failure, option never
appearing, failed expansion of the More section) is swallowed —
selectModelOnPage returns normally with the UI model unchanged, and the
exchange proceeds to message submission whose outcome alone decides the
result. -/
theorem selectModel_failures_swallowed (env : ExchangeEnv) (model cur : CopilotModel)
    (hesc : env.sel.escapeOk = true)
    (hnav : env.onCopilot = true ∨ env.navigateOk = true)
    (hfail : env.sel.modelButtonPresent = false
      ∨ env.sel.modelButtonClickOk = false
      ∨ env.sel.optionAppears = false
      ∨ env.sel.optionClickOk = false
      ∨ (modelsInMoreSection model = true ∧ env.sel.moreButtonPresent = true
          ∧ env.sel.moreButtonClickOk = false)) :
    selectModelOnPage env.sel model cur = .ok (false, cur)
    ∧ chatCompletionOnPage env model true cur
      = (match env.sendOutcome with
          | .ok text => .ok (text, cur)
          | .error e => .error e) := by
  have hsel : selectModelOnPage env.sel model cur = .ok (false, cur) := by
    rcases selectModelAttempt_cases env.sel model cur hfail with hok | ⟨e, herr⟩
    · simp [selectModelOnPage, hok]
    · simp [selectModelOnPage, herr, hesc]
  have hens : ensureOnCopilot env.onCopilot env.navigateOk = .ok () := by
    by_cases hc : env.onCopilot = true
    · simp [ensureOnCopilot, hc]
    · have hn : env.navigateOk = true := by
        rcases hnav with h | h
        · exact absurd h hc
        · exact h
      have hc2 : env.onCopilot = false := by simpa using hc
      simp [ensureOnCopilot, hc2, hn]
  refine ⟨hsel, ?_⟩
  cases hsend : env.sendOutcome <;>
    simp [chatCompletionOnPage, hens, hsel, hsend]

theorem selectModel_failures_swallowed_witness :
    ((⟨⟨true, true, true, true, false, true, true⟩, true, true,
        Except.ok "resp"⟩ : ExchangeEnv).sel.escapeOk = true
      ∧ ((⟨⟨true, true, true, true, false, true, true⟩, true, true,
          Except.ok "resp"⟩ : ExchangeEnv).onCopilot = true
        ∨ (⟨⟨true, true, true, true, false, true, true⟩, true, true,
          Except.ok "resp"⟩ : ExchangeEnv).navigateOk = true)
      ∧ (⟨⟨true, true, true, true, false, true, true⟩, true, true,
          Except.ok "resp"⟩ : ExchangeEnv).sel.optionAppears = false)
    ∧ (selectModelOnPage
        (⟨⟨true, true, true, true, false, true, true⟩, true, true,
          Except.ok "resp"⟩ : ExchangeEnv).sel CopilotModel.auto CopilotModel.think
        = .ok (false, CopilotModel.think)
      ∧ chatCompletionOnPage
          (⟨⟨true, true, true, true, false, true, true⟩, true, true,
            Except.ok "resp"⟩ : ExchangeEnv) CopilotModel.auto true CopilotModel.think
        = .ok ("resp", CopilotModel.think)) :=
  ⟨⟨rfl, Or.inl rfl, rfl⟩,
    selectModel_failures_swallowed
      ⟨⟨true, true, true, true, false, true, true⟩, true, true, Except.ok "resp"⟩
      CopilotModel.auto CopilotModel.think rfl (Or.inl rfl)
      (Or.inr (Or.inr (Or.inl rfl)))⟩

/-! ## Extraction strategy order -/

/-- C6 is falsified at a page whose only content is a whitespace-only text
in the generic fallback: the code returns the empty string, while a
strategy list that uniformly demands a non-empty trimmed match would
throw the extraction-failure error. -/
theorem extract_spec_counterexample :
    extractLastResponseFromPage ⟨[], [], [], [some " "]⟩ = some ""
    ∧ extractResponseSpec ⟨[], [], [], [some " "]⟩ = none
    ∧ extractLastResponseFromPage ⟨[], [], [], [some " "]⟩
        ≠ extractResponseSpec ⟨[], [], [], [some " "]⟩ :=
  ⟨by decide, by decide, by decide⟩

/-- C6 amended: the three structural strategies are tried in the fixed
order and yield the trimmed text of their last matching element when it is
non-empty; the generic fallback instead accepts any non-null, non-empty
raw text (so it may return an empty trimmed string); with no result at all
the extraction-failure error is thrown. -/
theorem extract_matches_amended_spec (p : ExtractPage) :
    extractLastResponseFromPage p = extractResponseSpecAmended p := by
  unfold extractLastResponseFromPage extractResponseSpecAmended fallbackStrategyResult
  cases h1 : strategyResult p.lastAssistantMessage <;>
    cases h2 : strategyResult p.assistantMessage <;>
      cases h3 : strategyResult p.responseContainer <;>
        simp [List.findSome?_cons, h1, h2, h3]
  cases h4 : p.messageShaped.getLast? with
  | none => simp [h4]
  | some o =>
    cases o with
    | none => simp [h4]
    | some text =>
      by_cases ht : text = "" <;> simp [h4, ht]

/-! ## The idle sweep versus a running exchange -/

/-- C7 is falsified by an explicit interleaving: an exchange starts, more
than the idle threshold of wall-clock time passes while it is still in
flight, and the interval sweep then closes the page of the very session
the exchange is running against — the ghost log of such closures is
non-empty. -/
theorem sweep_closes_running_counterexample :
    (runSysTrace sweepRaceTrace initSys).runningExchange = some 1
    ∧ (runSysTrace sweepRaceTrace initSys).closedWhileRunning = [1]
    ∧ (runSysTrace sweepRaceTrace initSys).closedWhileRunning ≠ [] :=
  ⟨by decide, by decide, by decide⟩

theorem foldl_removeSession_cons (s0 : Session) (ids : List Nat) :
    ∀ t : List Session, s0.id ∉ ids →
      ids.foldl removeSession (s0 :: t) = s0 :: ids.foldl removeSession t := by
  induction ids with
  | nil => intro t _; rfl
  | cons i u ih =>
    intro t h
    have hne : s0.id ≠ i := by
      intro e
      exact h (by simp [e])
    have hstep : removeSession (s0 :: t) i = s0 :: removeSession t i := by
      simp [removeSession, List.eraseP_cons, hne]
    rw [List.foldl_cons, hstep]
    exact ih (removeSession t i) (fun hm => h (List.mem_cons_of_mem _ hm))

theorem cleanup_eq_filter (now : Nat) (ss : List Session)
    (hnodup : (ss.map (·.id)).Nodup) :
    cleanupExpiredSessions now ss = ss.filter (fun s => !(isExpired now s)) := by
  induction ss with
  | nil => rfl
  | cons a t ih =>
    rw [List.map_cons, List.nodup_cons] at hnodup
    obtain ⟨hnotin, hnodup_t⟩ := hnodup
    by_cases hexp : isExpired now a = true
    · have hids : ((a :: t).filter (isExpired now)).map (·.id)
          = a.id :: (t.filter (isExpired now)).map (·.id) := by
        simp [List.filter_cons, hexp]
      have hrm : removeSession (a :: t) a.id = t := by
        simp [removeSession, List.eraseP_cons]
      calc cleanupExpiredSessions now (a :: t)
          = (a.id :: (t.filter (isExpired now)).map (·.id)).foldl
              removeSession (a :: t) := by
            rw [cleanupExpiredSessions, hids]
        _ = ((t.filter (isExpired now)).map (·.id)).foldl removeSession t := by
            rw [List.foldl_cons, hrm]
        _ = t.filter (fun s => !(isExpired now s)) := ih hnodup_t
        _ = (a :: t).filter (fun s => !(isExpired now s)) := by
            simp [List.filter_cons, hexp]
    · have hids : ((a :: t).filter (isExpired now)).map (·.id)
          = (t.filter (isExpired now)).map (·.id) := by
        simp [List.filter_cons, hexp]
      have hnot : a.id ∉ (t.filter (isExpired now)).map (·.id) := by
        intro hm
        rcases List.mem_map.mp hm with ⟨s, hs, hid⟩
        exact hnotin (List.mem_map.mpr ⟨s, List.mem_of_mem_filter hs, hid⟩)
      calc cleanupExpiredSessions now (a :: t)
          = ((t.filter (isExpired now)).map (·.id)).foldl removeSession (a :: t) := by
            rw [cleanupExpiredSessions, hids]
        _ = a :: ((t.filter (isExpired now)).map (·.id)).foldl removeSession t :=
            foldl_removeSession_cons a _ t hnot
        _ = a :: cleanupExpiredSessions now t := by rw [cleanupExpiredSessions]
        _ = a :: t.filter (fun s => !(isExpired now s)) := by rw [ih hnodup_t]
        _ = (a :: t).filter (fun s => !(isExpired now s)) := by
            simp [List.filter_cons, hexp]

/-- C7 amended: the sweep closes exactly the sessions whose inactivity
exceeds the idle threshold, regardless of whether the single in-flight
exchange is running against that session's page — serialization gives no
protection; in particular every session within the threshold survives the
sweep even mid-exchange. -/
theorem sweep_closes_exactly_stale (st : SysState)
    (hnodup : (st.sessions.map (·.id)).Nodup) :
    (sysStep .sweep st).sessions
      = st.sessions.filter (fun s => !(isExpired st.now s))
    ∧ (sysStep .sweep st).closedWhileRunning
      = st.closedWhileRunning ++
        ((st.sessions.filter (isExpired st.now)).filter
          (fun s => st.runningExchange == some s.id)).map (·.id)
    ∧ (∀ s ∈ st.sessions, isExpired st.now s = false →
        s ∈ (sysStep .sweep st).sessions) := by
  have hmain : (sysStep .sweep st).sessions
      = st.sessions.filter (fun s => !(isExpired st.now s)) :=
    cleanup_eq_filter st.now st.sessions hnodup
  refine ⟨hmain, rfl, ?_⟩
  intro s hs hnot
  rw [hmain]
  exact List.mem_filter.mpr ⟨hs, by simp [hnot]⟩

theorem sweep_closes_exactly_stale_witness :
    ((([⟨1, 0, 0, 0⟩, ⟨2, 0, 1999999, 3⟩] : List Session).map (·.id)).Nodup)
    ∧ ((sysStep .sweep ⟨2000000, [⟨1, 0, 0, 0⟩, ⟨2, 0, 1999999, 3⟩], some 1, []⟩).sessions
        = ([⟨1, 0, 0, 0⟩, ⟨2, 0, 1999999, 3⟩] : List Session).filter
            (fun s => !(isExpired 2000000 s))
      ∧ (sysStep .sweep ⟨2000000, [⟨1, 0, 0, 0⟩, ⟨2, 0, 1999999, 3⟩], some 1, []⟩).closedWhileRunning
        = [] ++ ((([⟨1, 0, 0, 0⟩, ⟨2, 0, 1999999, 3⟩] : List Session).filter
              (isExpired 2000000)).filter
            (fun s => (some 1 : Option Nat) == some s.id)).map (·.id)
      ∧ (∀ s ∈ ([⟨1, 0, 0, 0⟩, ⟨2, 0, 1999999, 3⟩] : List Session),
          isExpired 2000000 s = false →
          s ∈ (sysStep .sweep
            ⟨2000000, [⟨1, 0, 0, 0⟩, ⟨2, 0, 1999999, 3⟩], some 1, []⟩).sessions)) :=
  ⟨by decide,
    sweep_closes_exactly_stale ⟨2000000, [⟨1, 0, 0, 0⟩, ⟨2, 0, 1999999, 3⟩], some 1, []⟩
      (by decide)⟩

end CpApi
